import Mathlib

/-!
Shallow embedding of the jelly-player protocol handler (Go, `main.go` of the
batch-capable variant, plus the older single-payload variant where a claim
cites it).  Machine strings are `List Char`/`String`, bytes are `Nat`
(0..255), fallible stages return `Option`/`Except`.
-/

namespace MpvHandler

/-- Payload mirrors the Go struct `Payload`: JSON tags are
`mode, url, profile, geometry, title, sub`; the zero value has all fields
empty. -/
structure Payload where
  Target : String
  Url : String
  Profile : String
  Geometry : String
  Title : String
  Sub : String
deriving DecidableEq

instance : Inhabited Payload := ⟨⟨"", "", "", "", "", ""⟩⟩

/-- Config mirrors the Go struct `Config` of the batch variant. -/
structure Config where
  MpvPath : String
  PotPath : String
  EnableLog : Bool
  LogPath : String
deriving DecidableEq

/-- Cmd models the result of Go `exec.Command(binPath, args...)`: the
executable path and the argument slice built by a player handler. -/
structure Cmd where
  bin : String
  args : List String
deriving DecidableEq

/-- buildMpvCmd mirrors the Go function of the same name: the args slice
starts as `[p.Url]` and the optional flags are appended after it, in the
source order profile, geometry, title, sub. -/
def buildMpvCmd (binPath : String) (p : Payload) : Cmd :=
  let args := [p.Url]
  let args := if p.Profile ≠ "" then args ++ ["--profile=" ++ p.Profile] else args
  let args := if p.Geometry ≠ "" then args ++ ["--geometry=" ++ p.Geometry] else args
  let args := if p.Title ≠ "" then args ++ ["--force-media-title=" ++ p.Title] else args
  let args := if p.Sub ≠ "" then args ++ ["--sub-file=" ++ p.Sub] else args
  ⟨binPath, args⟩

/-- buildPotPlayerCmd mirrors the Go function of the same name: only the
bare URL is passed. -/
def buildPotPlayerCmd (binPath : String) (p : Payload) : Cmd :=
  ⟨binPath, [p.Url]⟩

/-- Registry is the type of the Go `Handlers` map, as an association list
(the Go map is only ever read by key lookup). -/
abbrev Registry : Type := List (String × (String → Payload → Cmd))

/-- Handlers mirrors the Go map literal `Handlers`. -/
def Handlers : Registry :=
  [("mpv", buildMpvCmd), ("potplayer", buildPotPlayerCmd)]

/-- lookupReg models Go map lookup `reg[t]` on the association list. -/
def lookupReg : Registry → String → Option (String → Payload → Cmd)
  | [], _ => none
  | (k, h) :: rest, t => if k = t then some h else lookupReg rest t

/-- clean000 is the character-classification loop of `parsePayload` in the
batch variant.  Go `switch` picks the first matching case, so the case
`r == '_' || r == '/'` captures `'/'` and writes `'/'`; the later
`case r == '/': continue` (commented in the source as discarding trailing
slashes and garbage) is dead code. -/
def clean000 : List Char → List Char
  | [] => []
  | r :: rest =>
    if ('A' ≤ r ∧ r ≤ 'Z') ∨ ('a' ≤ r ∧ r ≤ 'z') ∨ ('0' ≤ r ∧ r ≤ '9') then
      r :: clean000 rest
    else if r = '-' ∨ r = '+' then
      '+' :: clean000 rest
    else if r = '_' ∨ r = '/' then
      '/' :: clean000 rest
    else
      clean000 rest

/-- clean001 is the character-classification loop of `parsePayload` in the
older single-payload variant: there `'_'` alone maps to `'/'`, and a bare
`'/'` is discarded by its own case. -/
def clean001 : List Char → List Char
  | [] => []
  | r :: rest =>
    if ('A' ≤ r ∧ r ≤ 'Z') ∨ ('a' ≤ r ∧ r ≤ 'z') ∨ ('0' ≤ r ∧ r ≤ '9') then
      r :: clean001 rest
    else if r = '-' ∨ r = '+' then
      '+' :: clean001 rest
    else if r = '_' then
      '/' :: clean001 rest
    else
      clean001 rest

/-- padB64 mirrors the padding step: if the cleaned length `m := len % 4`
is not 0, append `"="` repeated `4 - m` times. -/
def padB64 (l : List Char) : List Char :=
  if l.length % 4 = 0 then l else l ++ List.replicate (4 - l.length % 4) '='

/-- sanitize000 is the whole Sanitizer of the batch variant (clean then
pad), as a `String` function. -/
def sanitize000 (s : String) : String :=
  ⟨padB64 (clean000 s.data)⟩

/-- sanitize001 is the whole Sanitizer of the older single-payload
variant. -/
def sanitize001 (s : String) : String :=
  ⟨padB64 (clean001 s.data)⟩

/-- b64Val gives the 6-bit value of a standard-alphabet base64 digit,
as in Go `encoding/base64` with `StdEncoding`. -/
def b64Val (c : Char) : Option Nat :=
  if 'A' ≤ c ∧ c ≤ 'Z' then some (c.toNat - 65)
  else if 'a' ≤ c ∧ c ≤ 'z' then some (c.toNat - 97 + 26)
  else if '0' ≤ c ∧ c ≤ '9' then some (c.toNat - 48 + 52)
  else if c = '+' then some 62
  else if c = '/' then some 63
  else none

/-- decodeQuanta decodes 4-character base64 quanta as Go's
`StdEncoding.DecodeString` does after newline filtering: padding (`=`) is
legal only in the last quantum, in the forms `xx==` and `xxx=`; leftover
input of length 1..3 is an error; padding bits need not be zero
(`StdEncoding` is not strict). -/
def decodeQuanta : List Char → Option (List Nat)
  | [] => some []
  | c1 :: c2 :: c3 :: c4 :: rest =>
    match b64Val c1, b64Val c2 with
    | some v1, some v2 =>
      if c3 = '=' then
        if c4 = '=' ∧ rest = [] then some [v1 * 4 + v2 / 16] else none
      else
        match b64Val c3 with
        | some v3 =>
          if c4 = '=' then
            if rest = [] then some [v1 * 4 + v2 / 16, (v2 % 16) * 16 + v3 / 4] else none
          else
            match b64Val c4 with
            | some v4 =>
              (decodeQuanta rest).map
                (fun bs => (v1 * 4 + v2 / 16) :: ((v2 % 16) * 16 + v3 / 4) :: ((v3 % 4) * 64 + v4) :: bs)
            | none => none
        | none => none
    | _, _ => none
  | _ => none

/-- base64StdDecode models Go `base64.StdEncoding.DecodeString`: carriage
returns and newlines are ignored, then the input is decoded in 4-character
quanta. -/
def base64StdDecode (l : List Char) : Option (List Nat) :=
  decodeQuanta (l.filter (fun c => c != '\r' && c != '\n'))

/-- bytesToChars models Go `string(data)` for the byte range; each byte
becomes one char (faithful on ASCII payloads, which is the domain the
handler's JSON machinery operates on). -/
def bytesToChars (bs : List Nat) : List Char :=
  bs.map Char.ofNat

/-- isSpaceGo recognizes the ASCII part of Go `unicode.IsSpace`, the
whitespace trimmed by `strings.TrimSpace`. -/
def isSpaceGo (c : Char) : Bool :=
  c = ' ' ∨ c = '\t' ∨ c = '\n' ∨ c = '\x0b' ∨ c = '\x0c' ∨ c = '\r'

/-- trimRunBoth drops a maximal run of characters satisfying `p` from both
ends of the list, as Go `strings.TrimFunc` does over a cutset/predicate. -/
def trimRunBoth (p : Char → Bool) (l : List Char) : List Char :=
  ((l.dropWhile p).reverse.dropWhile p).reverse

/-- trimSpaceGo models Go `strings.TrimSpace` (ASCII whitespace range). -/
def trimSpaceGo (l : List Char) : List Char :=
  trimRunBoth isSpaceGo l

/-- isNulSI recognizes the cutset of the source's
`strings.Trim(jsonStr, "\x00\x0f")`: NUL (0x00) and Shift-In (0x0F).
Note 0x0F is not the form-feed character, which is 0x0C. -/
def isNulSI (c : Char) : Bool :=
  c = '\x00' ∨ c = '\x0f'

/-- trimNulSI models the source's `strings.Trim(jsonStr, "\x00\x0f")`. -/
def trimNulSI (l : List Char) : List Char :=
  trimRunBoth isNulSI l

/-- Json is the value tree produced by Go `encoding/json` syntax; number
lexemes are kept verbatim (the handler only ever needs string fields, so a
number in a known field is a type error either way). -/
inductive Json where
  | null : Json
  | bool (b : Bool) : Json
  | num (lexeme : String) : Json
  | str (s : String) : Json
  | arr (elems : List Json) : Json
  | obj (members : List (String × Json)) : Json

/-- isJsonWs recognizes the JSON whitespace of RFC 8259, which is what the
Go scanner skips between tokens. -/
def isJsonWs (c : Char) : Bool :=
  c = ' ' || c = '\t' || c = '\n' || c = '\r'

/-- skipWs drops leading JSON whitespace. -/
def skipWs (l : List Char) : List Char :=
  l.dropWhile isJsonWs

/-- hexVal gives the value of one hex digit of a `\u` escape. -/
def hexVal (c : Char) : Option Nat :=
  if '0' ≤ c ∧ c ≤ '9' then some (c.toNat - 48)
  else if 'a' ≤ c ∧ c ≤ 'f' then some (c.toNat - 97 + 10)
  else if 'A' ≤ c ∧ c ≤ 'F' then some (c.toNat - 65 + 10)
  else none

/-- uEscChar maps a `\uXXXX` code to a char; an unpaired surrogate code
becomes U+FFFD as in Go's decoder (surrogate-pair recombination is not
modelled; the handler's claims never touch it). -/
def uEscChar (n : Nat) : Char :=
  if n < 0xd800 ∨ (0xdfff < n ∧ n < 0x110000) then Char.ofNat n else '�'

/-- consStr prepends a char to the pending string-body result. -/
def consStr (c : Char) : Option (List Char × List Char) → Option (List Char × List Char)
  | some (cs, rest) => some (c :: cs, rest)
  | none => none

/-- parseStrBody reads the body of a JSON string after the opening quote,
with the escapes Go accepts, rejecting unescaped control characters; it
returns the content and the input following the closing quote. -/
def parseStrBody : Nat → List Char → Option (List Char × List Char)
  | 0, _ => none
  | fuel + 1, l =>
    match l with
    | [] => none
    | '"' :: rest => some ([], rest)
    | '\\' :: e :: rest =>
      match e with
      | '"' => consStr '"' (parseStrBody fuel rest)
      | '\\' => consStr '\\' (parseStrBody fuel rest)
      | '/' => consStr '/' (parseStrBody fuel rest)
      | 'b' => consStr '\x08' (parseStrBody fuel rest)
      | 'f' => consStr '\x0c' (parseStrBody fuel rest)
      | 'n' => consStr '\n' (parseStrBody fuel rest)
      | 'r' => consStr '\r' (parseStrBody fuel rest)
      | 't' => consStr '\t' (parseStrBody fuel rest)
      | 'u' =>
        match rest with
        | h1 :: h2 :: h3 :: h4 :: rest2 =>
          match hexVal h1, hexVal h2, hexVal h3, hexVal h4 with
          | some a, some b, some c, some d =>
            consStr (uEscChar (((a * 16 + b) * 16 + c) * 16 + d)) (parseStrBody fuel rest2)
          | _, _, _, _ => none
        | _ => none
      | _ => none
    | c :: rest =>
      if c.toNat < 32 then none else consStr c (parseStrBody fuel rest)

/-- digitSpan splits off a maximal run of ASCII digits. -/
def digitSpan (l : List Char) : List Char × List Char :=
  (l.takeWhile Char.isDigit, l.dropWhile Char.isDigit)

/-- numFrac reads the optional fraction part of a JSON number. -/
def numFrac (l : List Char) : Option (List Char × List Char) :=
  match l with
  | '.' :: r =>
    let (ds, r2) := digitSpan r
    if ds = [] then none else some ('.' :: ds, r2)
  | _ => some ([], l)

/-- numExp reads the optional exponent part of a JSON number. -/
def numExp (l : List Char) : Option (List Char × List Char) :=
  match l with
  | e :: r =>
    if e = 'e' ∨ e = 'E' then
      match r with
      | s :: r2 =>
        if s = '+' ∨ s = '-' then
          let (ds, r3) := digitSpan r2
          if ds = [] then none else some (e :: s :: ds, r3)
        else
          let (ds, r3) := digitSpan r
          if ds = [] then none else some (e :: ds, r3)
      | [] => none
    else some ([], l)
  | [] => some ([], l)

/-- numInt reads the integer part of a JSON number: `0`, or a nonzero
digit followed by digits. -/
def numInt (l : List Char) : Option (List Char × List Char) :=
  match l with
  | '0' :: r => some (['0'], r)
  | c :: r =>
    if c.isDigit then
      let (ds, r2) := digitSpan r
      some (c :: ds, r2)
    else none
  | [] => none

/-- parseNumber reads a JSON number lexeme (RFC 8259 grammar, as Go's
scanner enforces it). -/
def parseNumber (l : List Char) : Option (List Char × List Char) :=
  let (sign, l1) := match l with
    | '-' :: r => ((['-'] : List Char), r)
    | _ => (([] : List Char), l)
  match numInt l1 with
  | none => none
  | some (ip, l2) =>
    match numFrac l2 with
    | none => none
    | some (fp, l3) =>
      match numExp l3 with
      | none => none
      | some (ep, l4) => some (sign ++ ip ++ fp ++ ep, l4)

/-- Frame is one open container during JSON parsing. -/
inductive Frame where
  | arrF (acc : List Json) : Frame
  | objF (acc : List (String × Json)) (key : String) : Frame

/-- PTask is the parser's current obligation: read a value, or fold a
completed value into the enclosing containers. -/
inductive PTask where
  | toParse (l : List Char) : PTask
  | reduceVal (v : Json) (l : List Char) : PTask

/-- pStep is a fuelled shift-reduce JSON parser (one non-mutual structural
recursion, so concrete runs reduce definitionally).  It accepts exactly
the value grammar that Go `encoding/json` accepts. -/
def pStep : Nat → List Frame → PTask → Option (Json × List Char)
  | 0, _, _ => none
  | fuel + 1, stack, PTask.toParse l =>
    match skipWs l with
    | 'n' :: 'u' :: 'l' :: 'l' :: r => pStep fuel stack (PTask.reduceVal Json.null r)
    | 't' :: 'r' :: 'u' :: 'e' :: r => pStep fuel stack (PTask.reduceVal (Json.bool true) r)
    | 'f' :: 'a' :: 'l' :: 's' :: 'e' :: r => pStep fuel stack (PTask.reduceVal (Json.bool false) r)
    | '"' :: r =>
      match parseStrBody (r.length + 1) r with
      | some (cs, r2) => pStep fuel stack (PTask.reduceVal (Json.str ⟨cs⟩) r2)
      | none => none
    | '[' :: r =>
      match skipWs r with
      | ']' :: r2 => pStep fuel stack (PTask.reduceVal (Json.arr []) r2)
      | _ => pStep fuel (Frame.arrF [] :: stack) (PTask.toParse r)
    | '{' :: r =>
      match skipWs r with
      | '}' :: r2 => pStep fuel stack (PTask.reduceVal (Json.obj []) r2)
      | '"' :: r2 =>
        match parseStrBody (r2.length + 1) r2 with
        | some (cs, r3) =>
          match skipWs r3 with
          | ':' :: r4 => pStep fuel (Frame.objF [] ⟨cs⟩ :: stack) (PTask.toParse r4)
          | _ => none
        | none => none
      | _ => none
    | c :: r =>
      if c = '-' ∨ c.isDigit then
        match parseNumber (c :: r) with
        | some (lex, r2) => pStep fuel stack (PTask.reduceVal (Json.num ⟨lex⟩) r2)
        | none => none
      else none
    | [] => none
  | fuel + 1, stack, PTask.reduceVal v l =>
    match stack with
    | [] => some (v, l)
    | Frame.arrF acc :: stack2 =>
      match skipWs l with
      | ',' :: r => pStep fuel (Frame.arrF (v :: acc) :: stack2) (PTask.toParse r)
      | ']' :: r => pStep fuel stack2 (PTask.reduceVal (Json.arr (v :: acc).reverse) r)
      | _ => none
    | Frame.objF acc key :: stack2 =>
      match skipWs l with
      | ',' :: r =>
        match skipWs r with
        | '"' :: r2 =>
          match parseStrBody (r2.length + 1) r2 with
          | some (cs, r3) =>
            match skipWs r3 with
            | ':' :: r4 => pStep fuel (Frame.objF ((key, v) :: acc) ⟨cs⟩ :: stack2) (PTask.toParse r4)
            | _ => none
          | none => none
        | _ => none
      | '}' :: r => pStep fuel stack2 (PTask.reduceVal (Json.obj ((key, v) :: acc).reverse) r)
      | _ => none

/-- jsonParse models the syntactic side of one Go `json.Unmarshal` call:
the input must hold exactly one JSON value, with only whitespace allowed
after it. -/
def jsonParse (l : List Char) : Option Json :=
  match pStep (4 * l.length + 16) [] (PTask.toParse l) with
  | some (v, rest) => if skipWs rest = [] then some v else none
  | none => none

/-- asciiLower folds an ASCII letter to lower case, the case-insensitive
key matching Go's decoder performs (our struct tags are all ASCII). -/
def asciiLower (c : Char) : Char :=
  if 'A' ≤ c ∧ c ≤ 'Z' then Char.ofNat (c.toNat + 32) else c

/-- foldKey lower-cases a JSON object key for field matching. -/
def foldKey (s : String) : String :=
  ⟨s.data.map asciiLower⟩

/-- assignStr models Go's decoding of a JSON value into a `string` struct
field: a JSON string assigns, JSON null is a no-op, anything else is an
`UnmarshalTypeError`. -/
def assignStr (v : Json) (set : String → Payload) (p : Payload) : Option Payload :=
  match v with
  | Json.str s => some (set s)
  | Json.null => some p
  | _ => none

/-- setField dispatches one object member onto the `Payload` struct by
tag (exact and case-insensitive matching coincide because every tag is
lower case); unknown keys are ignored. -/
def setField (p : Payload) (key : String) (v : Json) : Option Payload :=
  let k := foldKey key
  if k = "mode" then assignStr v (fun s => { p with Target := s }) p
  else if k = "url" then assignStr v (fun s => { p with Url := s }) p
  else if k = "profile" then assignStr v (fun s => { p with Profile := s }) p
  else if k = "geometry" then assignStr v (fun s => { p with Geometry := s }) p
  else if k = "title" then assignStr v (fun s => { p with Title := s }) p
  else if k = "sub" then assignStr v (fun s => { p with Sub := s }) p
  else some p

/-- objToPayload folds the members of a JSON object into the zero
`Payload`, in member order (later duplicates overwrite, as in Go). -/
def objToPayload (kvs : List (String × Json)) : Option Payload :=
  kvs.foldlM (fun p kv => setField p kv.1 kv.2) (default : Payload)

/-- elemToPayload models Go's decoding of one array element into a
`*Payload`: null gives a nil pointer, an object allocates and fills one,
anything else is a type error. -/
def elemToPayload : Json → Option (Option Payload)
  | Json.null => some none
  | Json.obj kvs => (objToPayload kvs).map some
  | _ => none

/-- mapElems decodes the elements of a JSON array one after another, in
array order, failing as soon as one element fails, as Go's array decoding
does for the purposes of the error/no-error outcome. -/
def mapElems : List Json → Option (List (Option Payload))
  | [] => some []
  | v :: vs =>
    match elemToPayload v, mapElems vs with
    | some b, some bs => some (b :: bs)
    | _, _ => none

/-- arrUnmarshal models `json.Unmarshal(data, &results)` for
`results : []*Payload` on an already-parsed value: a JSON array decodes
element-wise in order; JSON null leaves the nil slice (which Go callers
see as an empty list); anything else is a type error. -/
def arrUnmarshal : Json → Option (List (Option Payload))
  | Json.arr vs => mapElems vs
  | Json.null => some []
  | _ => none

/-- objUnmarshal models `json.Unmarshal(data, &single)` for
`single : Payload` on an already-parsed value. -/
def objUnmarshal : Json → Option Payload
  | Json.obj kvs => objToPayload kvs
  | Json.null => some default
  | _ => none

/-- PError is the error taxonomy of `parsePayload` in the batch variant:
the three `fmt.Errorf` shapes. -/
inductive PError where
  | schemeMismatch : PError
  | decodeError : PError
  | malformedPayload : PError
deriving DecidableEq

/-- schemeChars is the `jelly-player://` protocol tag checked by
`strings.HasPrefix`. -/
def schemeChars : List Char :=
  "jelly-player://".data

/-- hasSchemeTag models `strings.HasPrefix(rawURI, "jelly-player://")`
(character-wise comparison agrees with Go's byte-wise one on the ASCII
tag). -/
def hasSchemeTag (l : List Char) : Bool :=
  l.take 15 = schemeChars

/-- b64StageOf gives the byte output of the base64 step of the batch
`parsePayload` (after scheme strip, cleaning and padding), or `none` when
the scheme is missing or the decode fails. -/
def b64StageOf (raw : String) : Option (List Nat) :=
  if hasSchemeTag raw.data then
    base64StdDecode (padB64 (clean000 (raw.data.drop 15)))
  else none

/-- decodedTextOf gives the text the batch `parsePayload` hands to JSON
parsing: the decoded bytes as a string, whitespace-trimmed, then trimmed
of the `"\x00\x0f"` cutset. -/
def decodedTextOf (raw : String) : Option (List Char) :=
  (b64StageOf raw).map (fun bs => trimNulSI (trimSpaceGo (bytesToChars bs)))

/-- jsonValueOf gives the JSON value the batch `parsePayload` decodes,
when all the whole-payload stages succeed. -/
def jsonValueOf (raw : String) : Option Json :=
  (decodedTextOf raw).bind jsonParse

/-- parseFromJson is step 5 of the batch `parsePayload`: try the
array-shaped unmarshal first, then the single-object one, else fail.
The source calls `json.Unmarshal` twice on the same text; since both
calls parse the same string, this is modelled as one syntactic parse
followed by the two shape attempts, which fails and succeeds in exactly
the same cases with the same values. -/
def parseFromJson (v : Json) : Except PError (List (Option Payload)) :=
  match arrUnmarshal v with
  | some results => Except.ok results
  | none =>
    match objUnmarshal v with
    | some single => Except.ok [some single]
    | none => Except.error PError.malformedPayload

/-- parsePayload models the batch variant's `parsePayload`: scheme check,
vacuum-clean, pad, base64-decode, trim, then smart deserialization into a
list of (possibly nil) instruction pointers. -/
def parsePayload (raw : String) : Except PError (List (Option Payload)) :=
  if hasSchemeTag raw.data then
    match base64StdDecode (padB64 (clean000 (raw.data.drop 15))) with
    | none => Except.error PError.decodeError
    | some bs =>
      match jsonParse (trimNulSI (trimSpaceGo (bytesToChars bs))) with
      | none => Except.error PError.malformedPayload
      | some v => parseFromJson v
  else Except.error PError.schemeMismatch

/-- Event is one observable step of the dispatch loop of `main` in the
batch variant, carrying the loop index.  The first three events mirror
the three skip branches; `launched` records the command handed to
`cmd.Start()` together with the logged title and geometry.  The source
calls `writeLog` in the unknown-target, missing-path and launch branches,
but the absent-handler branch is a bare `continue`. -/
inductive Event where
  | unknownTarget (i : Nat) (target : String) : Event
  | missingPath (i : Nat) (target : String) : Event
  | skippedNoHandler (i : Nat) (target : String) : Event
  | launched (i : Nat) (cmd : Cmd) (title geometry : String) : Event
deriving DecidableEq

/-- eventLogged tells whether the branch behind an event calls
`writeLog`; the absent-handler branch is the only silent one. -/
def eventLogged : Event → Bool
  | Event.skippedNoHandler _ _ => false
  | _ => true

/-- isLaunch recognizes process-start attempts. -/
def isLaunch : Event → Bool
  | Event.launched _ _ _ _ => true
  | _ => false

/-- dispatchResolve models the `switch p.Target` of the dispatch loop:
the executable path for a recognized target, `none` otherwise. -/
def dispatchResolve (cfg : Config) (t : String) : Option String :=
  if t = "mpv" then some cfg.MpvPath
  else if t = "potplayer" then some cfg.PotPath
  else none

/-- dispatchStep is one iteration of the dispatch loop on a non-nil
instruction, parametrized by the registry the `Handlers` lookup reads. -/
def dispatchStep (reg : Registry) (cfg : Config) (i : Nat) (p : Payload) : Event :=
  match dispatchResolve cfg p.Target with
  | none => Event.unknownTarget i p.Target
  | some bin =>
    if bin = "" then Event.missingPath i p.Target
    else
      match lookupReg reg p.Target with
      | none => Event.skippedNoHandler i p.Target
      | some h => Event.launched i (h bin p) p.Title p.Geometry

/-- runDispatchFrom runs the dispatch loop from index `i`.  The boolean
records whether the loop panicked: a nil instruction pointer makes
`p.Target` dereference nil, which aborts the program before any later
instruction runs. -/
def runDispatchFrom (reg : Registry) (cfg : Config) (i : Nat) :
    List (Option Payload) → List Event × Bool
  | [] => ([], false)
  | none :: _ => ([], true)
  | some p :: rest =>
    let e := dispatchStep reg cfg i p
    let r := runDispatchFrom reg cfg (i + 1) rest
    (e :: r.1, r.2)

/-- runDispatch is the whole dispatch loop of `main`. -/
def runDispatch (reg : Registry) (cfg : Config) (ps : List (Option Payload)) :
    List Event × Bool :=
  runDispatchFrom reg cfg 0 ps

/-- runMain models the run mode of `main` in the batch variant: a
`parsePayload` error is logged and nothing is dispatched; otherwise the
dispatch loop consumes the list. -/
def runMain (cfg : Config) (arg : String) : List Event × Bool :=
  match parsePayload arg with
  | Except.error _ => ([], false)
  | Except.ok ps => runDispatch Handlers cfg ps

/-- b64CoreChar holds for the 64 data characters of the standard base64
alphabet. -/
def b64CoreChar (c : Char) : Prop :=
  ('A' ≤ c ∧ c ≤ 'Z') ∨ ('a' ≤ c ∧ c ≤ 'z') ∨ ('0' ≤ c ∧ c ≤ '9') ∨ c = '+' ∨ c = '/'

instance (c : Char) : Decidable (b64CoreChar c) := by
  unfold b64CoreChar
  infer_instance

/-- stdB64NoSlash holds for standard-alphabet base64 data characters other
than `'/'`, the domain of the sanitizer no-op claim. -/
def stdB64NoSlash (c : Char) : Prop :=
  ('A' ≤ c ∧ c ≤ 'Z') ∨ ('a' ≤ c ∧ c ≤ 'z') ∨ ('0' ≤ c ∧ c ≤ '9') ∨ c = '+'

instance (c : Char) : Decidable (stdB64NoSlash c) := by
  unfold stdB64NoSlash
  infer_instance

/-- optFlag is one optional mpv flag: present exactly when the field is
non-empty. -/
def optFlag (flag v : String) : List String :=
  if v = "" then [] else [flag ++ v]

/-- specCleanup is modelled from the claim's words, for comparison with
the code's cleanup: trim surrounding whitespace, then strip stray NUL
(0x00) and form-feed (0x0C) bytes from the ends.  The code instead trims
the cutset NUL/Shift-In (0x00/0x0F). -/
def specCleanup (l : List Char) : List Char :=
  trimRunBoth (fun c => c = '\x00' || c = '\x0c') (trimSpaceGo l)

/-- idxEvents is the event list the dispatch loop produces for a run of
non-nil instructions starting at index `k`. -/
def idxEvents (reg : Registry) (cfg : Config) : Nat → List Payload → List Event
  | _, [] => []
  | k, p :: rest => dispatchStep reg cfg k p :: idxEvents reg cfg (k + 1) rest

/-- cfgEx is a sample configuration: mpv is configured, potplayer is not. -/
def cfgEx : Config :=
  ⟨"C:/mpv.exe", "", true, "C:/mpv-handler.log"⟩

/-- pVlc is a sample instruction with an unrecognized target. -/
def pVlc : Payload :=
  ⟨"vlc", "http://x/a.mkv", "", "", "", ""⟩

/-- pMpv is a sample dispatchable mpv instruction. -/
def pMpv : Payload :=
  ⟨"mpv", "http://x/b.mkv", "", "", "t2", "g2"⟩

/-- pProfile is a sample mpv instruction with a profile set. -/
def pProfile : Payload :=
  ⟨"mpv", "http://x/v.mkv", "multi", "", "", ""⟩

/-- pPot is a sample potplayer instruction (its path is unset in
`cfgEx`). -/
def pPot : Payload :=
  ⟨"potplayer", "http://x/c.mkv", "", "", "", ""⟩

/-- pAfterNil is the dispatchable mpv instruction decoded right after the
JSON null element in the C3 counterexample payload. -/
def pAfterNil : Payload :=
  ⟨"mpv", "u", "", "", "", ""⟩

theorem clean000_core (s : List Char) : ∀ c ∈ clean000 s, b64CoreChar c := by
  induction s with
  | nil => simp [clean000]
  | cons r rest ih =>
    unfold clean000
    split_ifs with h1 h2 h3
    · intro c hc
      rcases List.mem_cons.mp hc with rfl | hc
      · rcases h1 with h | h | h
        · exact Or.inl h
        · exact Or.inr (Or.inl h)
        · exact Or.inr (Or.inr (Or.inl h))
      · exact ih c hc
    · intro c hc
      rcases List.mem_cons.mp hc with rfl | hc
      · exact Or.inr (Or.inr (Or.inr (Or.inl rfl)))
      · exact ih c hc
    · intro c hc
      rcases List.mem_cons.mp hc with rfl | hc
      · exact Or.inr (Or.inr (Or.inr (Or.inr rfl)))
      · exact ih c hc
    · exact ih

theorem padB64_len_mod (l : List Char) : (padB64 l).length % 4 = 0 := by
  unfold padB64
  split_ifs with h
  · exact h
  · simp only [List.length_append, List.length_replicate]
    omega

/-- C9: for every input string, the Sanitizer's output contains only
characters from the standard base64 alphabet plus `'='`, every `'='` is
trailing padding, and the output length is a multiple of 4. -/
theorem c9_prop (s : List Char) :
    (∀ c ∈ padB64 (clean000 s), b64CoreChar c ∨ c = '=') ∧
    (padB64 (clean000 s)).length % 4 = 0 ∧
    ∃ u k, padB64 (clean000 s) = u ++ List.replicate k '=' ∧ ∀ c ∈ u, b64CoreChar c := by
  refine ⟨?_, padB64_len_mod _, ?_⟩
  · intro c hc
    unfold padB64 at hc
    split_ifs at hc with h
    · exact Or.inl (clean000_core s c hc)
    · rcases List.mem_append.mp hc with hc | hc
      · exact Or.inl (clean000_core s c hc)
      · exact Or.inr (List.eq_of_mem_replicate hc)
  · unfold padB64
    split_ifs with h
    · exact ⟨clean000 s, 0, by simp, clean000_core s⟩
    · exact ⟨clean000 s, 4 - (clean000 s).length % 4, rfl, clean000_core s⟩

/-- C2: the batch sanitizer does not discard a bare `'/'`; the case
`r == '_' || r == '/'` of the Go switch captures it first and keeps it,
so `"AB/"` sanitizes to `"AB/="` where the claimed behaviour (implemented
by the older variant's sanitizer) yields `"AB=="`. -/
theorem c2_prop :
    sanitize000 "AB/" = "AB/=" ∧ sanitize001 "AB/" = "AB==" :=
  ⟨rfl, rfl⟩

/-- C4: a whole-payload error from `parsePayload` makes the run mode
return before the dispatch loop, so no process start is attempted. -/
theorem c4_prop (cfg : Config) (arg : String) (e : PError)
    (h : parsePayload arg = Except.error e) :
    runMain cfg arg = ([], false) ∧ (runMain cfg arg).1.filter isLaunch = [] := by
  unfold runMain
  rw [h]
  exact ⟨rfl, rfl⟩

theorem c4_witness :
    runMain cfgEx "jelly-player://dHJ1ZQ" = ([], false) ∧
    (runMain cfgEx "jelly-player://dHJ1ZQ").1.filter isLaunch = [] :=
  c4_prop cfgEx "jelly-player://dHJ1ZQ" PError.malformedPayload rfl

/-- C5 counterexample: for the mpv builder the bare URL is the first
argument and the profile flag follows it, so the flag is not ahead of the
URL as the claim states. -/
theorem c5_counterexample :
    (buildMpvCmd "C:/mpv.exe" pProfile).args = ["http://x/v.mkv", "--profile=multi"] ∧
    "--profile=multi" ∈ (buildMpvCmd "C:/mpv.exe" pProfile).args ∧
    ¬ (List.indexOf "--profile=multi" (buildMpvCmd "C:/mpv.exe" pProfile).args <
       List.indexOf "http://x/v.mkv" (buildMpvCmd "C:/mpv.exe" pProfile).args) := by
  refine ⟨rfl, by decide, by decide⟩

/-- C5 amended: the mpv builder's argument vector is the bare URL followed
by the optional profile, geometry, title and subtitle flags, each present
exactly when its field is non-empty; the potplayer builder's argument
vector is exactly the bare URL. -/
theorem c5_amended (binPath : String) (p : Payload) :
    buildMpvCmd binPath p =
      ⟨binPath, p.Url :: (optFlag "--profile=" p.Profile ++ optFlag "--geometry=" p.Geometry ++
        optFlag "--force-media-title=" p.Title ++ optFlag "--sub-file=" p.Sub)⟩ ∧
    buildPotPlayerCmd binPath p = ⟨binPath, [p.Url]⟩ := by
  refine ⟨?_, rfl⟩
  simp only [buildMpvCmd, optFlag]
  split_ifs <;> simp_all

theorem dispatchResolve_cases (cfg : Config) (t : String) (bin : String)
    (h : dispatchResolve cfg t = some bin) :
    (t = "mpv" ∧ bin = cfg.MpvPath) ∨ (t = "potplayer" ∧ bin = cfg.PotPath) := by
  unfold dispatchResolve at h
  split_ifs at h with h1 h2
  · exact Or.inl ⟨h1, (Option.some.inj h).symm⟩
  · exact Or.inr ⟨h2, (Option.some.inj h).symm⟩

/-- C10: every target that passes the executable-path switch (so exactly
`"mpv"` or `"potplayer"`) has a registry entry, and the defensive
absent-builder branch of the dispatch loop can produce no event. -/
theorem c10_prop :
    (∀ (cfg : Config) (t bin : String),
      dispatchResolve cfg t = some bin → (lookupReg Handlers t).isSome = true) ∧
    (∀ (cfg : Config) (i : Nat) (p : Payload) (j : Nat) (t : String),
      dispatchStep Handlers cfg i p ≠ Event.skippedNoHandler j t) := by
  constructor
  · intro cfg t bin h
    rcases dispatchResolve_cases cfg t bin h with ⟨rfl, _⟩ | ⟨rfl, _⟩ <;> rfl
  · intro cfg i p j t hcon
    by_cases ht1 : p.Target = "mpv"
    · by_cases hb : cfg.MpvPath = ""
      · simp [dispatchStep, dispatchResolve, ht1, hb] at hcon
      · simp [dispatchStep, dispatchResolve, ht1, hb, lookupReg, Handlers] at hcon
    · by_cases ht2 : p.Target = "potplayer"
      · by_cases hb : cfg.PotPath = ""
        · simp [dispatchStep, dispatchResolve, ht1, ht2, hb] at hcon
        · simp [dispatchStep, dispatchResolve, ht1, ht2, hb, lookupReg, Handlers] at hcon
      · simp [dispatchStep, dispatchResolve, ht1, ht2] at hcon

theorem c10_witness :
    (lookupReg Handlers "mpv").isSome = true ∧
    dispatchStep Handlers cfgEx 0 pMpv ≠ Event.skippedNoHandler 0 "mpv" :=
  ⟨c10_prop.1 cfgEx "mpv" "C:/mpv.exe" rfl, c10_prop.2 cfgEx 0 pMpv 0 "mpv"⟩

/-- C8 counterexample: on an instruction whose target has a configured
executable path but no registry entry, the dispatch loop's absent-builder
branch is a bare `continue`: it produces the skip event and calls no
logging at all, against the claim that the condition is logged. -/
theorem c8_counterexample :
    dispatchResolve cfgEx pMpv.Target = some "C:/mpv.exe" ∧
    ("C:/mpv.exe" : String) ≠ "" ∧
    lookupReg ([] : Registry) pMpv.Target = none ∧
    dispatchStep ([] : Registry) cfgEx 0 pMpv = Event.skippedNoHandler 0 "mpv" ∧
    eventLogged (dispatchStep ([] : Registry) cfgEx 0 pMpv) = false :=
  ⟨rfl, by decide, rfl, rfl, rfl⟩

/-- C8 amended: for every instruction whose target has a configured,
non-empty executable path but no Builder Registry entry, the Dispatcher
silently skips it (no log call is made) and continues with the next
instruction. -/
theorem c8_amended (reg : Registry) (cfg : Config) (i : Nat) (p : Payload) (bin : String)
    (rest : List (Option Payload))
    (h1 : dispatchResolve cfg p.Target = some bin) (h2 : bin ≠ "")
    (h3 : lookupReg reg p.Target = none) :
    dispatchStep reg cfg i p = Event.skippedNoHandler i p.Target ∧
    eventLogged (dispatchStep reg cfg i p) = false ∧
    runDispatchFrom reg cfg i (some p :: rest) =
      (Event.skippedNoHandler i p.Target :: (runDispatchFrom reg cfg (i + 1) rest).1,
        (runDispatchFrom reg cfg (i + 1) rest).2) := by
  have hstep : dispatchStep reg cfg i p = Event.skippedNoHandler i p.Target := by
    simp only [dispatchStep, h1, h3, if_neg h2]
  refine ⟨hstep, by rw [hstep]; rfl, ?_⟩
  show (dispatchStep reg cfg i p :: (runDispatchFrom reg cfg (i + 1) rest).1,
    (runDispatchFrom reg cfg (i + 1) rest).2) = _
  rw [hstep]

theorem runDispatchFrom_map (reg : Registry) (cfg : Config) :
    ∀ (ps : List Payload) (k : Nat),
      runDispatchFrom reg cfg k (ps.map some) = (idxEvents reg cfg k ps, false)
  | [], _ => rfl
  | p :: rest, k => by
    show (dispatchStep reg cfg k p :: (runDispatchFrom reg cfg (k + 1) (rest.map some)).1,
      (runDispatchFrom reg cfg (k + 1) (rest.map some)).2) = _
    rw [runDispatchFrom_map reg cfg rest (k + 1)]
    rfl

theorem idxEvents_length (reg : Registry) (cfg : Config) :
    ∀ (ps : List Payload) (k : Nat), (idxEvents reg cfg k ps).length = ps.length
  | [], _ => rfl
  | p :: rest, k => by
    simp [idxEvents, idxEvents_length reg cfg rest (k + 1)]

theorem idxEvents_get (reg : Registry) (cfg : Config) :
    ∀ (ps : List Payload) (k i : Nat),
      (idxEvents reg cfg k ps).get? i = (ps.get? i).map (fun p => dispatchStep reg cfg (k + i) p)
  | [], _, _ => by simp [idxEvents]
  | p :: rest, k, 0 => by simp [idxEvents]
  | p :: rest, k, i + 1 => by
    show (idxEvents reg cfg (k + 1) rest).get? i = _
    rw [idxEvents_get reg cfg rest (k + 1) i]
    have hkk : k + 1 + i = k + (i + 1) := by omega
    rw [hkk]
    rfl

theorem runDispatchFrom_append_none (reg : Registry) (cfg : Config) :
    ∀ (ps : List Payload) (k : Nat) (rest : List (Option Payload)),
      runDispatchFrom reg cfg k (ps.map some ++ none :: rest) = (idxEvents reg cfg k ps, true)
  | [], _, _ => rfl
  | p :: ps2, k, rest => by
    show (dispatchStep reg cfg k p ::
        (runDispatchFrom reg cfg (k + 1) (ps2.map some ++ none :: rest)).1,
      (runDispatchFrom reg cfg (k + 1) (ps2.map some ++ none :: rest)).2) = _
    rw [runDispatchFrom_append_none reg cfg ps2 (k + 1) rest]
    rfl

/-- C3 counterexample: the decoded instruction list of the payload
`[null,{...mpv...}]` starts with a nil instruction; the dispatch loop
panics dereferencing it and aborts the batch, so the following
instruction — recognized target, configured non-empty path — never has
its process start attempted, against the claim's never-aborts guarantee. -/
theorem c3_counterexample :
    parsePayload "jelly-player://W251bGwseyJtb2RlIjoibXB2IiwidXJsIjoidSJ9XQ" =
      Except.ok [none, some pAfterNil] ∧
    dispatchResolve cfgEx pAfterNil.Target = some "C:/mpv.exe" ∧
    ("C:/mpv.exe" : String) ≠ "" ∧
    runDispatch Handlers cfgEx [none, some pAfterNil] = ([], true) ∧
    (runDispatch Handlers cfgEx [none, some pAfterNil]).1.filter isLaunch = [] :=
  ⟨rfl, rfl, by decide, rfl, rfl⟩

/-- C3 amended: each enumerated per-instruction failure (unrecognized
target, or empty configured path) produces its own logged event and the
loop moves on, so over a batch of proper (non-nil) instructions nothing
aborts, one event arises per instruction, and every instruction with a
recognized target and non-empty configured path gets its launch attempt;
a nil instruction (decoded from a JSON null array element), however,
panics the loop and aborts the batch, so nothing after it is attempted. -/
theorem c3_amended (cfg : Config) (ps : List Payload) :
    (runDispatch Handlers cfg (ps.map some)).2 = false ∧
    (runDispatch Handlers cfg (ps.map some)).1.length = ps.length ∧
    (∀ i p, ps.get? i = some p → dispatchResolve cfg p.Target = none →
      (runDispatch Handlers cfg (ps.map some)).1.get? i =
        some (Event.unknownTarget i p.Target) ∧
      eventLogged (Event.unknownTarget i p.Target) = true) ∧
    (∀ i p bin, ps.get? i = some p → dispatchResolve cfg p.Target = some bin → bin = "" →
      (runDispatch Handlers cfg (ps.map some)).1.get? i =
        some (Event.missingPath i p.Target) ∧
      eventLogged (Event.missingPath i p.Target) = true) ∧
    (∀ i p bin, ps.get? i = some p → dispatchResolve cfg p.Target = some bin → bin ≠ "" →
      ∃ h, lookupReg Handlers p.Target = some h ∧
        (runDispatch Handlers cfg (ps.map some)).1.get? i =
          some (Event.launched i (h bin p) p.Title p.Geometry)) ∧
    (∀ rest : List (Option Payload),
      runDispatch Handlers cfg (ps.map some ++ none :: rest) =
        ((runDispatch Handlers cfg (ps.map some)).1, true)) := by
  unfold runDispatch
  rw [runDispatchFrom_map]
  have hget : ∀ i, (idxEvents Handlers cfg 0 ps).get? i =
      (ps.get? i).map (fun q => dispatchStep Handlers cfg i q) := by
    intro i
    have := idxEvents_get Handlers cfg ps 0 i
    simpa using this
  refine ⟨rfl, idxEvents_length Handlers cfg ps 0, ?_, ?_, ?_, ?_⟩
  · intro i p hi hr
    have hstep : dispatchStep Handlers cfg i p = Event.unknownTarget i p.Target := by
      simp only [dispatchStep, hr]
    rw [hget i, hi, Option.map_some', hstep]
    exact ⟨rfl, rfl⟩
  · intro i p bin hi hr hb
    have hstep : dispatchStep Handlers cfg i p = Event.missingPath i p.Target := by
      simp only [dispatchStep, hr, if_pos hb]
    rw [hget i, hi, Option.map_some', hstep]
    exact ⟨rfl, rfl⟩
  · intro i p bin hi hr hb
    have hstep : ∀ h, lookupReg Handlers p.Target = some h →
        dispatchStep Handlers cfg i p = Event.launched i (h bin p) p.Title p.Geometry := by
      intro h hl
      simp only [dispatchStep, hr, hl, if_neg hb]
    rcases dispatchResolve_cases cfg p.Target bin hr with ⟨ht, _⟩ | ⟨ht, _⟩
    · refine ⟨buildMpvCmd, by rw [ht]; rfl, ?_⟩
      rw [hget i, hi, Option.map_some', hstep buildMpvCmd (by rw [ht]; rfl)]
    · refine ⟨buildPotPlayerCmd, by rw [ht]; rfl, ?_⟩
      rw [hget i, hi, Option.map_some', hstep buildPotPlayerCmd (by rw [ht]; rfl)]
  · intro rest
    rw [runDispatchFrom_append_none]

theorem c3_witness :
    (runDispatch Handlers cfgEx ([pVlc, pMpv, pPot].map some)).2 = false ∧
    ((runDispatch Handlers cfgEx ([pVlc, pMpv, pPot].map some)).1.get? 0 =
        some (Event.unknownTarget 0 pVlc.Target) ∧
      eventLogged (Event.unknownTarget 0 pVlc.Target) = true) ∧
    ((runDispatch Handlers cfgEx ([pVlc, pMpv, pPot].map some)).1.get? 2 =
        some (Event.missingPath 2 pPot.Target) ∧
      eventLogged (Event.missingPath 2 pPot.Target) = true) ∧
    (∃ h, lookupReg Handlers pMpv.Target = some h ∧
      (runDispatch Handlers cfgEx ([pVlc, pMpv, pPot].map some)).1.get? 1 =
        some (Event.launched 1 (h "C:/mpv.exe" pMpv) pMpv.Title pMpv.Geometry)) ∧
    runDispatch Handlers cfgEx ([pVlc, pMpv, pPot].map some ++ none :: []) =
      ((runDispatch Handlers cfgEx ([pVlc, pMpv, pPot].map some)).1, true) := by
  have hthm := c3_amended cfgEx [pVlc, pMpv, pPot]
  exact ⟨hthm.1, hthm.2.2.1 0 pVlc rfl rfl, hthm.2.2.2.1 2 pPot "" rfl rfl rfl,
    hthm.2.2.2.2.1 1 pMpv "C:/mpv.exe" rfl rfl (by decide), hthm.2.2.2.2.2 []⟩

theorem c8_witness :
    dispatchStep ([] : Registry) cfgEx 0 pMpv = Event.skippedNoHandler 0 pMpv.Target ∧
    eventLogged (dispatchStep ([] : Registry) cfgEx 0 pMpv) = false ∧
    runDispatchFrom ([] : Registry) cfgEx 0 [some pMpv] =
      (Event.skippedNoHandler 0 pMpv.Target :: (runDispatchFrom ([] : Registry) cfgEx 1 []).1,
        (runDispatchFrom ([] : Registry) cfgEx 1 []).2) :=
  c8_amended [] cfgEx 0 pMpv "C:/mpv.exe" [] rfl (by decide) rfl

theorem clean000_id (s : List Char) (h : ∀ c ∈ s, stdB64NoSlash c) : clean000 s = s := by
  induction s with
  | nil => rfl
  | cons r rest ih =>
    have hr := h r (List.mem_cons_self r rest)
    have hrest : ∀ c ∈ rest, stdB64NoSlash c := fun c hc => h c (List.mem_cons_of_mem r hc)
    unfold clean000
    rcases hr with h1 | h1 | h1 | h1
    · rw [if_pos (Or.inl h1), ih hrest]
    · rw [if_pos (Or.inr (Or.inl h1)), ih hrest]
    · rw [if_pos (Or.inr (Or.inr h1)), ih hrest]
    · subst h1
      rw [if_neg (by decide), if_pos (Or.inr rfl), ih hrest]

theorem filter_crlf_id (s : List Char) (h : ∀ c ∈ s, stdB64NoSlash c) :
    s.filter (fun c => c != '\r' && c != '\n') = s := by
  apply List.filter_eq_self.mpr
  intro a ha
  have haa := h a ha
  by_cases h1 : a = '\r'
  · subst h1; exact absurd haa (by decide)
  by_cases h2 : a = '\n'
  · subst h2; exact absurd haa (by decide)
  simp [h1, h2]

theorem decodeQuanta_len : ∀ (l : List Char) (bs : List Nat),
    decodeQuanta l = some bs → l.length % 4 = 0
  | [], _, _ => rfl
  | [c1], _, h => Option.noConfusion h
  | [c1, c2], _, h => Option.noConfusion h
  | [c1, c2, c3], _, h => Option.noConfusion h
  | c1 :: c2 :: c3 :: c4 :: rest, bs, h => by
    unfold decodeQuanta at h
    cases hv1 : b64Val c1 with
    | none => rw [hv1] at h; exact Option.noConfusion h
    | some v1 =>
      rw [hv1] at h
      cases hv2 : b64Val c2 with
      | none => rw [hv2] at h; exact Option.noConfusion h
      | some v2 =>
        rw [hv2] at h
        simp only at h
        by_cases h3 : c3 = '='
        · rw [if_pos h3] at h
          by_cases h4 : c4 = '=' ∧ rest = []
          · rcases h4 with ⟨_, rfl⟩
            simp only [List.length_cons, List.length_nil]
          · rw [if_neg h4] at h; exact Option.noConfusion h
        · rw [if_neg h3] at h
          cases hv3 : b64Val c3 with
          | none => rw [hv3] at h; exact Option.noConfusion h
          | some v3 =>
            rw [hv3] at h
            simp only at h
            by_cases h4 : c4 = '='
            · rw [if_pos h4] at h
              by_cases h5 : rest = []
              · subst h5; simp only [List.length_cons, List.length_nil]
              · rw [if_neg h5] at h; exact Option.noConfusion h
            · rw [if_neg h4] at h
              cases hv4 : b64Val c4 with
              | none => rw [hv4] at h; exact Option.noConfusion h
              | some v4 =>
                rw [hv4] at h
                simp only at h
                rcases Option.map_eq_some'.mp h with ⟨bs2, hbs2, _⟩
                have hrec := decodeQuanta_len rest bs2 hbs2
                simp only [List.length_cons]
                omega

/-- C6: for every string over the standard base64 alphabet without `'/'`,
the Sanitizer keeps it unchanged up to `'='` padding, and decoding the
sanitized string gives exactly the bytes of a direct standard-base64
decode of the original whenever that decode succeeds. -/
theorem c6_prop (s : List Char) (h : ∀ c ∈ s, stdB64NoSlash c) :
    clean000 s = s ∧
    (∃ k, padB64 (clean000 s) = s ++ List.replicate k '=') ∧
    (∀ bs, base64StdDecode s = some bs → base64StdDecode (padB64 (clean000 s)) = some bs) := by
  have hid := clean000_id s h
  refine ⟨hid, ?_, ?_⟩
  · rw [hid]
    unfold padB64
    split_ifs
    · exact ⟨0, by simp⟩
    · exact ⟨4 - s.length % 4, rfl⟩
  · intro bs hdec
    have hfil := filter_crlf_id s h
    have hlen : s.length % 4 = 0 := by
      unfold base64StdDecode at hdec
      rw [hfil] at hdec
      exact decodeQuanta_len s bs hdec
    rw [hid]
    unfold padB64
    rw [if_pos hlen]
    exact hdec

theorem c6_witness :
    (∀ c ∈ "QUJD".data, stdB64NoSlash c) ∧
    clean000 "QUJD".data = "QUJD".data ∧
    base64StdDecode "QUJD".data = some [65, 66, 67] ∧
    base64StdDecode (padB64 (clean000 "QUJD".data)) = some [65, 66, 67] := by
  have hh : ∀ c ∈ "QUJD".data, stdB64NoSlash c := by decide
  exact ⟨hh, (c6_prop "QUJD".data hh).1, rfl, (c6_prop "QUJD".data hh).2.2 [65, 66, 67] rfl⟩

theorem mapElems_length : ∀ (vs : List Json) (l : List (Option Payload)),
    mapElems vs = some l → l.length = vs.length
  | [], l, h => by
    cases Option.some.inj h
    rfl
  | v :: vs, l, h => by
    unfold mapElems at h
    cases he : elemToPayload v with
    | none => rw [he] at h; exact Option.noConfusion h
    | some b =>
      rw [he] at h
      cases hm : mapElems vs with
      | none => rw [hm] at h; simp at h
      | some bs =>
        rw [hm] at h
        simp only at h
        cases Option.some.inj h
        simp [mapElems_length vs bs hm]

theorem parsePayload_ok_json (raw : String) (l : List (Option Payload))
    (h : parsePayload raw = Except.ok l) :
    ∃ v, jsonValueOf raw = some v ∧ parseFromJson v = Except.ok l := by
  unfold parsePayload at h
  by_cases hs : hasSchemeTag raw.data
  case neg =>
    rw [if_neg hs] at h
    exact Except.noConfusion h
  rw [if_pos hs] at h
  split at h
  · exact Except.noConfusion h
  · rename_i bs hd
    split at h
    · exact Except.noConfusion h
    · rename_i v hj
      refine ⟨v, ?_, h⟩
      unfold jsonValueOf decodedTextOf b64StageOf
      rw [if_pos hs, hd]
      simpa using hj

theorem parseFromJson_ok (v : Json) (l : List (Option Payload))
    (h : parseFromJson v = Except.ok l) :
    (∃ vs, v = Json.arr vs ∧ mapElems vs = some l) ∨
    (v = Json.null ∧ l = []) ∨
    (∃ kvs, v = Json.obj kvs ∧ l.length = 1) := by
  cases v with
  | null =>
    simp only [parseFromJson, arrUnmarshal] at h
    cases Except.ok.inj h
    exact Or.inr (Or.inl ⟨rfl, rfl⟩)
  | arr vs =>
    simp only [parseFromJson, arrUnmarshal] at h
    cases hm : mapElems vs with
    | none => rw [hm] at h; simp only [objUnmarshal] at h; exact Except.noConfusion h
    | some r =>
      rw [hm] at h
      simp only at h
      cases Except.ok.inj h
      exact Or.inl ⟨vs, rfl, hm⟩
  | obj kvs =>
    simp only [parseFromJson, arrUnmarshal, objUnmarshal] at h
    cases hm : objToPayload kvs with
    | none => rw [hm] at h; exact Except.noConfusion h
    | some p =>
      rw [hm] at h
      simp only at h
      cases Except.ok.inj h
      exact Or.inr (Or.inr ⟨kvs, rfl, rfl⟩)
  | bool b =>
    simp only [parseFromJson, arrUnmarshal, objUnmarshal] at h
    exact Except.noConfusion h
  | num s =>
    simp only [parseFromJson, arrUnmarshal, objUnmarshal] at h
    exact Except.noConfusion h
  | str s =>
    simp only [parseFromJson, arrUnmarshal, objUnmarshal] at h
    exact Except.noConfusion h

/-- C1 counterexample: the input `jelly-player://W10` is accepted (its
payload decodes to the JSON text `[]`), yet the returned instruction list
is empty, against the claimed at-least-one-element guarantee. -/
theorem c1_counterexample :
    parsePayload "jelly-player://W10" = Except.ok [] ∧
    ¬ 1 ≤ ([] : List (Option Payload)).length :=
  ⟨rfl, by decide⟩

/-- C1 amended: for every accepted input the returned list preserves input
order — a JSON array yields exactly its elements in array order, a single
JSON object yields a one-element list — but the list is empty (with no
error) exactly when the decoded JSON is the empty array or null. -/
theorem c1_amended (raw : String) (l : List (Option Payload))
    (h : parsePayload raw = Except.ok l) :
    ((∃ vs, jsonValueOf raw = some (Json.arr vs) ∧ mapElems vs = some l) ∨
      (jsonValueOf raw = some Json.null ∧ l = []) ∨
      (∃ kvs, jsonValueOf raw = some (Json.obj kvs) ∧ l.length = 1)) ∧
    (l = [] → jsonValueOf raw = some (Json.arr []) ∨ jsonValueOf raw = some Json.null) := by
  obtain ⟨v, hv, hp⟩ := parsePayload_ok_json raw l h
  have hd := parseFromJson_ok v l hp
  constructor
  · rcases hd with ⟨vs, rfl, hm⟩ | ⟨rfl, rfl⟩ | ⟨kvs, rfl, hl⟩
    · exact Or.inl ⟨vs, hv, hm⟩
    · exact Or.inr (Or.inl ⟨hv, rfl⟩)
    · exact Or.inr (Or.inr ⟨kvs, hv, hl⟩)
  · intro hnil
    subst hnil
    rcases hd with ⟨vs, rfl, hm⟩ | ⟨rfl, _⟩ | ⟨kvs, rfl, hl⟩
    · left
      have hlen : vs.length = 0 := (mapElems_length vs [] hm).symm
      have hvs : vs = [] := List.length_eq_zero.mp hlen
      subst hvs
      exact hv
    · right
      exact hv
    · exact absurd hl (by simp)

theorem c1_witness :
    ((∃ vs, jsonValueOf "jelly-player://W10" = some (Json.arr vs) ∧
        mapElems vs = some ([] : List (Option Payload))) ∨
      (jsonValueOf "jelly-player://W10" = some Json.null ∧ ([] : List (Option Payload)) = []) ∨
      (∃ kvs, jsonValueOf "jelly-player://W10" = some (Json.obj kvs) ∧
        ([] : List (Option Payload)).length = 1)) ∧
    (([] : List (Option Payload)) = [] →
      jsonValueOf "jelly-player://W10" = some (Json.arr []) ∨
      jsonValueOf "jelly-player://W10" = some Json.null) :=
  c1_amended "jelly-player://W10" [] rfl

theorem dropWhile_head_not (p : Char → Bool) (l : List Char) (c : Char)
    (h : (l.dropWhile p).head? = some c) : p c = false := by
  have hx := List.head?_dropWhile_not p l
  rw [h] at hx
  exact hx

theorem trimRunBoth_last (p : Char → Bool) (l : List Char) (c : Char)
    (h : (trimRunBoth p l).getLast? = some c) : p c = false := by
  unfold trimRunBoth at h
  rw [List.getLast?_reverse] at h
  exact dropWhile_head_not p _ c h

theorem trimRunBoth_head (p : Char → Bool) (l : List Char) (c : Char)
    (h : (trimRunBoth p l).head? = some c) : p c = false := by
  unfold trimRunBoth at h
  rw [List.head?_reverse] at h
  obtain ⟨t, ht⟩ := List.dropWhile_suffix (l := (l.dropWhile p).reverse) p
  have hne : (l.dropWhile p).reverse.dropWhile p ≠ [] := by
    intro hnil
    rw [hnil] at h
    exact Option.noConfusion h
  have hlast : (t ++ (l.dropWhile p).reverse.dropWhile p).getLast? = some c := by
    rw [List.getLast?_append_of_ne_nil _ hne]
    exact h
  rw [ht, List.getLast?_reverse] at hlast
  exact dropWhile_head_not p l c hlast

/-- C7 counterexample: the code's post-decode cleanup trims the cutset
NUL/Shift-In (0x00/0x0F), not NUL/form-feed: on the input whose payload
decodes to the bytes `7B 7D 0C 00` the text handed to JSON parsing still
ends in a form feed, so parsing fails, while the claimed cleanup would
hand over `\x7b\x7d` and succeed. -/
theorem c7_counterexample :
    b64StageOf "jelly-player://e30MAA==" = some [123, 125, 12, 0] ∧
    decodedTextOf "jelly-player://e30MAA==" = some "\x7b\x7d\x0c".data ∧
    specCleanup (bytesToChars [123, 125, 12, 0]) = "\x7b\x7d".data ∧
    "\x7b\x7d\x0c".data ≠ "\x7b\x7d".data ∧
    (jsonParse "\x7b\x7d".data).isSome = true ∧
    parsePayload "jelly-player://e30MAA==" = Except.error PError.malformedPayload :=
  ⟨rfl, rfl, rfl, by decide, rfl, rfl⟩

/-- C7 amended: after a successful base64 decode, the Decoder trims
surrounding whitespace from the decoded text and then strips stray NUL
(0x00) and Shift-In (0x0F) — not form-feed — bytes from the ends of the
trimmed text, and hands exactly that text to JSON parsing. -/
theorem c7_amended (raw : String) (bs : List Nat) (h : b64StageOf raw = some bs) :
    ∃ t, decodedTextOf raw = some t ∧
      t = trimNulSI (trimSpaceGo (bytesToChars bs)) ∧
      (∀ c, t.head? = some c → isNulSI c = false) ∧
      (∀ c, t.getLast? = some c → isNulSI c = false) ∧
      jsonValueOf raw = jsonParse t := by
  refine ⟨trimNulSI (trimSpaceGo (bytesToChars bs)), ?_, rfl, ?_, ?_, ?_⟩
  · unfold decodedTextOf
    rw [h]
    rfl
  · exact fun c hc => trimRunBoth_head isNulSI _ c hc
  · exact fun c hc => trimRunBoth_last isNulSI _ c hc
  · unfold jsonValueOf decodedTextOf
    rw [h]
    rfl

theorem c7_witness :
    ∃ t, decodedTextOf "jelly-player://e30MAA==" = some t ∧
      t = trimNulSI (trimSpaceGo (bytesToChars [123, 125, 12, 0])) ∧
      (∀ c, t.head? = some c → isNulSI c = false) ∧
      (∀ c, t.getLast? = some c → isNulSI c = false) ∧
      jsonValueOf "jelly-player://e30MAA==" = jsonParse t :=
  c7_amended "jelly-player://e30MAA==" [123, 125, 12, 0] rfl

end MpvHandler
